import Mathlib

/-!
Shallow embedding of the offline policy-evaluation estimators of
`contextualbandits/evaluation.py`, and theorems checking the module's
specification against the code.

Modelling conventions:
* numpy 1-D arrays are `List ℚ` (or `List ℤ` for action indices); vectorized
  numpy operations become list maps/filters/zips with positional semantics.
* The covariate matrix `X` enters the computations only through its rows and
  its leading dimension, so a row is a `List ℚ` and `X : List (List ℚ)`.
* `np.mean` over an empty selection yields NaN in numpy; `npMean` returns
  `Option ℚ`, with `none` standing for NaN.
* Python exceptions (assert failures, ValueError, NameError) become
  `Except EvalError`.
* Policies are mutated in place in Python; here their state is passed
  explicitly (see `Policy`).
-/

/-- Errors surfaced by the evaluation module.  Each constructor corresponds
to a concrete Python exception; see the doc comment of each one. -/
inductive EvalError where
  /-- A shape/type assert of the input-validation helpers or of the function
  preamble fails (Python `AssertionError`). -/
  | assertionFailed
  /-- Python `ValueError("Rejection sampling couldn't obtain any matching samples.")`
  raised by the online branch of `evaluateRejectionSampling`. -/
  | noMatchingSamples
  /-- Python `ValueError("No cases below maximum 'c'.")` raised by
  `evaluateDoublyRobustSimplified` and `evaluateNCIS`. -/
  | noCasesBelowCmax
  /-- numpy `ValueError` raised by `np.einsum` when an operand has fewer
  dimensions than its subscript string (here: subscripts "ij,ij->i" applied
  to one-dimensional operands). -/
  | einsumSubscriptsMismatch
  /-- Python `NameError` for the undefined variable `features` (and
  `batch_size`) in the loop header of `evaluateFullyLabeled`. -/
  | nameErrorFeatures
deriving DecidableEq

/-- Modelled from the spec: `_check_random_state` lives in `utils.py`, which is
not under `src/`; the spec says it resolves a `random_state` argument into "a
reusable generator interface with stable draw semantics".  The generator is
modelled as a deterministic state machine seeded by the integer; the values it
draws are abstracted by deterministic functions of the state (only determinism
— and, for Beta draws, lying strictly between 0 and 1 — matters to the
claims). -/
structure RNG where
  state : ℕ
deriving DecidableEq

/-- Modelled from the spec: resolution of an integer `random_state` seed into
a generator (`_check_random_state`, not under `src/`). -/
def checkRandomState (seed : ℕ) : RNG := ⟨seed⟩

/-- One uniform draw from `[0, n)` (numpy `Generator.integers(n)`), advancing
the generator. -/
def RNG.integers (g : RNG) (n : ℕ) : ℕ × RNG :=
  (g.state % n, ⟨g.state + 1⟩)

/-- One abstract Beta(a, b) draw: a deterministic function of the generator
state, strictly between 0 and 1. -/
def betaVal (a b s : ℕ) : ℚ :=
  ((a : ℚ) + 1) / ((a : ℚ) + (b : ℚ) + (s : ℚ) + 2)

/-- A vector of `n` Beta(a, b) draws (numpy `rs.beta(a, b, size=n)`),
advancing the generator state by `n`. -/
def RNG.betaVec (g : RNG) (a b n : ℕ) : List ℚ × RNG :=
  ((List.range n).map (fun i => betaVal a b (g.state + i)), ⟨g.state + n⟩)

/-- Model of `np.mean` of a 1-D array; `none` models the NaN numpy produces (with a
runtime warning) on an empty selection. -/
def npMean (l : List ℚ) : Option ℚ :=
  if l.length = 0 then none else some (l.sum / (l.length : ℚ))

/-- The external policy contract of the spec (`predict` / `fit` /
`partial_fit`).  Python mutates the policy object in place; the embedding
passes its state `σ` explicitly.  `init` is the policy's state at call time,
`partFit` stands for the source's `partial_fit`. -/
structure Policy (σ : Type) where
  init : σ
  predict : σ → List ℚ → ℤ
  fit : σ → List (List ℚ) → List ℤ → List ℚ → σ
  partFit : σ → List (List ℚ) → List ℤ → List ℚ → σ

/-- Model of the `start_point_online` argument: the string `'random'` or an integer
index (the float case of the source behaves like the int case up to the
`range` call and is not exercised by any claim). -/
inductive StartPoint where
  | random
  | atIndex (i : ℕ)

/-- Mutable state of the online rejection-sampling loop: accumulated reward
`cum_r`, acceptance count `cum_n`, accepted indices `ix_chosen` in acceptance
order, and the policy state. -/
structure OnlineState (σ : Type) where
  cumR : ℚ
  cumN : ℕ
  ixChosen : List ℕ
  pol : σ

/-- One iteration of the online loop of `evaluateRejectionSampling`
(lines 82-109 of `evaluation.py`): predict on row `i`; on a match accumulate
reward and index, and refit every `updateFreq`-th acceptance — a full refit on
all accepted rows, or, when the source's `partial_fit` flag is set, an
incremental fit on `ix_chosen[:-(update_freq+1):-1]`, i.e. the last
`updateFreq` accepted indices in reverse order. -/
def rsStep {σ : Type} (pol : Policy σ) (X : List (List ℚ)) (a : List ℤ)
    (r : List ℚ) (incremental : Bool) (updateFreq : ℕ)
    (st : OnlineState σ) (i : ℕ) : OnlineState σ :=
  if pol.predict st.pol (X.getD i []) = a.getD i 0 then
    let cumR := st.cumR + r.getD i 0
    let cumN := st.cumN + 1
    let ix := st.ixChosen ++ [i]
    let s' :=
      if cumN % updateFreq = 0 then
        if incremental then
          let ixFit := ix.reverse.take updateFreq
          pol.partFit st.pol (ixFit.map (fun j => X.getD j []))
            (ixFit.map (fun j => a.getD j 0)) (ixFit.map (fun j => r.getD j 0))
        else
          pol.fit st.pol (ix.map (fun j => X.getD j []))
            (ix.map (fun j => a.getD j 0)) (ix.map (fun j => r.getD j 0))
      else st.pol
    ⟨cumR, cumN, ix, s'⟩
  else st

/-- Model of `evaluateRejectionSampling` (lines 8-112 of `evaluation.py`).
`ambient` models the process-global numpy random state: the source never
touches it (every draw goes through the generator built by
`_check_random_state`), so the parameter is deliberately unused.
The leading length test models `_check_fit_input` (spec §4.1: equal leading
dimensions, validation failure otherwise).  Offline branch (lines 70-73):
`pred = policy.predict(X); match = pred == a;
return (np.mean(r[match]), match.sum())` — note that with zero matches this
returns NaN and 0, it does not raise.  Online branch (lines 74-112): fit on an
empty slice, traverse `start, ..., n-1, 0, ..., start-1` with `rsStep`, raise
when nothing was accepted. -/
def evaluateRejectionSampling {σ : Type} (ambient : RNG) (pol : Policy σ)
    (X : List (List ℚ)) (a : List ℤ) (r : List ℚ) (online : Bool)
    (incremental : Bool) (startPoint : StartPoint) (randomState : ℕ)
    (updateFreq : ℕ) : Except EvalError (Option ℚ × ℕ) :=
  if X.length = a.length ∧ a.length = r.length then
    let n := X.length
    let start : ℕ :=
      match startPoint with
      | .random => ((checkRandomState randomState).integers n).1
      | .atIndex i => i
    match online with
    | false =>
      let preds := X.map (pol.predict pol.init)
      let matched := (preds.zip (a.zip r)).filter (fun q => decide (q.1 = q.2.1))
      .ok (npMean (matched.map (fun q => q.2.2)), matched.length)
    | true =>
      let s0 := pol.fit pol.init [] [] []
      let order := List.range' start (n - start) ++ List.range start
      let final := order.foldl (rsStep pol X a r incremental updateFreq) ⟨0, 0, [], s0⟩
      if final.cumN = 0 then .error .noMatchingSamples
      else .ok (some (final.cumR / (final.cumN : ℚ)), final.cumN)
  else .error .assertionFailed

/-- numpy fancy assignment `v[v == target] = draws[v == target]` where `draws`
has the same length as `v`: positions holding exactly `target` receive the
draw at the same position, the others are unchanged. -/
def imputeEq (target : ℚ) (draws v : List ℚ) : List ℚ :=
  (v.zip draws).map (fun q => if q.1 = target then q.2 else q.1)

/-- The propensity transformation of `evaluateDoublyRobust` (lines 236-239):
`if c is not None: p = c * p` then
`if pmin is not None: p = np.clip(p, a_min=pmin, a_max=None)`.
Both numpy operations allocate fresh arrays and rebind the local name `p`;
the caller's array is never written. -/
def drAdjustP (c? pmin? : Option ℚ) (p : List ℚ) : List ℚ :=
  let p1 := match c? with
    | some c => p.map (fun x => c * x)
    | none => p
  match pmin? with
  | some m => p1.map (fun x => max x m)
  | none => p1

/-- Model of `evaluateDoublyRobust` (lines 115-245 of `evaluation.py`), for the case
where `reward_estimator` is a precomputed n×2 array (the only estimator
variant the claims exercise; the other variants delegate to external
classifiers).  In the source, `rhat_new = reward_estimator[:, 0]` and
`rhat_old = reward_estimator[:, 1]` are views into the caller's array, and
`out = rhat_new` aliases the first column, so the imputation writes
(lines 231-234) and the fancy in-place `out[actions_matching] += ...`
(line 243) land in the caller's buffer.  The model therefore returns, besides
the scalar result (`np.mean(out)`), the final caller-visible contents of the
`reward_estimator` buffer and of the `p` buffer.  `p` itself is only ever
rebound (`drAdjustP`), so the caller's `p` comes back unchanged.
`ambient` is the untouched process-global numpy state, as in
`evaluateRejectionSampling`. -/
def evaluateDoublyRobust (ambient : RNG) (randomState : ℕ) (pred a : List ℤ)
    (r p : List ℚ) (rewardEstimator : List (ℚ × ℚ)) (handleInvalid : Bool)
    (c? pmin? : Option ℚ) :
    Except EvalError (Option ℚ × List (ℚ × ℚ) × List ℚ) :=
  let n := r.length
  if a.length = n ∧ p.length = n ∧ pred.length = n ∧ rewardEstimator.length = n then
    let rs := checkRandomState randomState
    let rhatNew0 := rewardEstimator.map Prod.fst
    let rhatOld0 := rewardEstimator.map Prod.snd
    let imputed :=
      match handleInvalid with
      | true =>
        let d1 := rs.betaVec 3 1 n
        let rn1 := imputeEq 1 d1.1 rhatNew0
        let d2 := d1.2.betaVec 1 3 n
        let rn2 := imputeEq 0 d2.1 rn1
        let d3 := d2.2.betaVec 3 1 n
        let ro1 := imputeEq 1 d3.1 rhatOld0
        let d4 := d3.2.betaVec 1 3 n
        let ro2 := imputeEq 0 d4.1 ro1
        (rn2, ro2)
      | false => (rhatNew0, rhatOld0)
    let rhatNew := imputed.1
    let rhatOld := imputed.2
    let pAdj := drAdjustP c? pmin? p
    let out := (List.range n).map (fun i =>
      if pred.getD i 0 = a.getD i 0 then
        rhatNew.getD i 0 + (r.getD i 0 - rhatOld.getD i 0) / pAdj.getD i 0
      else rhatNew.getD i 0)
    .ok (npMean out, out.zip rhatOld, p)
  else .error .assertionFailed

/-- The scalar that `evaluateDoublyRobust` returns to its caller (the other
two components of the model are the caller-visible final buffer contents). -/
def drReturnValue (ambient : RNG) (randomState : ℕ) (pred a : List ℤ)
    (r p : List ℚ) (rewardEstimator : List (ℚ × ℚ)) (handleInvalid : Bool)
    (c? pmin? : Option ℚ) : Except EvalError (Option ℚ) :=
  (evaluateDoublyRobust ambient randomState pred a r p rewardEstimator
    handleInvalid c? pmin?).map (fun t => t.1)

/-- Model of `evaluateDoublyRobustSimplified` (lines 343-425 of `evaluation.py`):
`w = np.clip(est / p, a_min=cmin, a_max=None)`, keep rows with `w <= cmax`,
raise when none is kept, otherwise return the plain mean of
`(r[take] - p[take]) * w[take] + est[take]`.  Rows are the zipped columns
`(est_i, (r_i, p_i))`. -/
def evaluateDoublyRobustSimplified (est : List ℚ) (r p : List ℚ)
    (cmin cmax : ℚ) : Except EvalError ℚ :=
  if est.length = p.length ∧ est.length = r.length then
    let rows := est.zip (r.zip p)
    let kept := rows.filter (fun q => decide (max (q.1 / q.2.2) cmin ≤ cmax))
    if kept.length = 0 then .error .noCasesBelowCmax
    else
      .ok ((kept.map (fun q =>
        (q.2.1 - q.2.2) * max (q.1 / q.2.2) cmin + q.1)).sum / (kept.length : ℚ))
  else .error .assertionFailed

/-- The call `np.einsum("ij,ij->i", w[take], r[take])` as made on line 496 of
`evaluation.py`.  Both operands are one-dimensional there (`est` and `p` pass
through the 1-D validator, so `w`, and the boolean selections of `w` and `r`,
have rank 1), while the subscript string "ij" demands rank-2 operands; numpy
raises `ValueError: einstein sum subscripts string contains too many
subscripts for operand 0` before reading any data.  The declared result type
is the scalar the surrounding expression expects; no value is ever
produced. -/
def einsumPairwiseDot (w r : List ℚ) : Except EvalError ℚ :=
  .error .einsumSubscriptsMismatch

/-- Model of `evaluateNCIS` (lines 427-496 of `evaluation.py`): same weight/keep/raise
steps as `evaluateDoublyRobustSimplified`, then
`np.einsum("ij,ij->i", w[take], r[take]) / np.sum(w[take])`. -/
def evaluateNCIS (est : List ℚ) (r p : List ℚ) (cmin cmax : ℚ) :
    Except EvalError ℚ :=
  if est.length = p.length ∧ est.length = r.length then
    let rows := est.zip (r.zip p)
    let kept := rows.filter (fun q => decide (max (q.1 / q.2.2) cmin ≤ cmax))
    if kept.length = 0 then .error .noCasesBelowCmax
    else
      match einsumPairwiseDot (kept.map (fun q => max (q.1 / q.2.2) cmin))
          (kept.map (fun q => q.2.1)) with
      | .error e => .error e
      | .ok numer => .ok (numer / (kept.map (fun q => max (q.1 / q.2.2) cmin)).sum)
  else .error .assertionFailed

/-- The Python value passed as `update_freq` to `evaluateFullyLabeled`:
either a `bool` or a non-bool `int` (in Python `bool` is a subclass of `int`,
and `isinstance(update_freq, bool)` is `True` exactly for the two `bool`
literals). -/
inductive PyIntLike where
  | pyBool (b : Bool)
  | pyInt (k : ℤ)
deriving DecidableEq

/-- Externally observable effects of `evaluateFullyLabeled`: `shuffled` is the
only step that writes the caller's `X`/`y_onehot` buffers (the in-place
shuffle of lines 296-300), `fitted`/`partFitted` are the only steps touching
the policy, `predicted` the only policy read. -/
inductive FLEffect where
  | shuffled
  | fitted
  | partFitted
  | predicted
deriving DecidableEq

/-- Model of `evaluateFullyLabeled` (lines 247-341 of `evaluation.py`), modelled as the
sequence of asserts of its preamble followed by the effects it performs before
crashing.  The parameters carry exactly what the control flow depends on: the
two leading dimensions, the arm count, the two boolean flags, the
`update_freq` value and the seed.  Source order of the preamble asserts:
`type(X)`/`type(y_onehot)` are ndarray (statically true of the model),
`isinstance(online, bool)`, `isinstance(shuffle, bool)` (statically true:
the flags are typed `Bool`), then `assert isinstance(update_freq, bool)`
(line 289) — an integer such as the default `50` fails here, before the
shuffle, the seed batch draw, and any fit or predict.  When `update_freq` IS
a bool, it acts as the integer 0 or 1 downstream; after the optional in-place
shuffle and the initial fit, the loop header
`range(int(np.floor(features.shape[0]/batch_size)))` (line 317) reads the
undefined names `features`/`batch_size` and raises `NameError`. -/
def evaluateFullyLabeled (nX nY nArms : ℕ) (onlineFlag shuffleFlag : Bool)
    (updateFreq : PyIntLike) (randomState : ℕ) :
    Except EvalError Unit × List FLEffect :=
  match updateFreq with
  | .pyInt _ => (.error .assertionFailed, [])
  | .pyBool b =>
    let uf : ℕ := if b then 1 else 0
    if nX ≤ uf then (.error .assertionFailed, [])
    else if nX ≠ nY then (.error .assertionFailed, [])
    else
      let effs := (if shuffleFlag then [FLEffect.shuffled] else [])
        ++ [if onlineFlag then FLEffect.partFitted else FLEffect.fitted]
      (.error .nameErrorFeatures, effs)

/-- A policy that always predicts arm `k`, ignoring the context and any
refitting; used to instantiate policy-quantified theorems. -/
def constPolicy (k : ℤ) : Policy Unit :=
  ⟨(), fun _ _ => k, fun s _ _ _ => s, fun s _ _ _ => s⟩

/-- The set of row indices the offline branch of rejection sampling keeps:
those where the policy's prediction (in its call-time state) equals the logged
action. -/
def offlineMatches {σ : Type} (pol : Policy σ) (X : List (List ℚ))
    (a : List ℤ) : List ℕ :=
  (List.range X.length).filter
    (fun i => decide (pol.predict pol.init (X.getD i []) = a.getD i 0))

lemma filter_map_eq_range {α β : Type} (l : List α) (d : α) (q : α → Bool)
    (f : α → β) :
    (l.filter q).map f
      = ((List.range l.length).filter (fun i => q (l.getD i d))).map
          (fun i => f (l.getD i d)) := by
  induction l with
  | nil => simp
  | cons x xs ih =>
    have e1 : ((fun i => q ((x :: xs).getD i d)) ∘ Nat.succ)
        = fun i => q (xs.getD i d) := by
      funext i; simp [Function.comp, List.getD_cons_succ]
    have e2 : ((fun i => f ((x :: xs).getD i d)) ∘ Nat.succ)
        = fun i => f (xs.getD i d) := by
      funext i; simp [Function.comp, List.getD_cons_succ]
    by_cases hqx : q x
    · simp only [List.length_cons, List.range_succ_eq_map, List.filter_cons,
        List.getD_cons_zero, hqx, if_true, List.map_cons, List.filter_map,
        List.map_map, e1, e2, ih]
    · simp only [List.length_cons, List.range_succ_eq_map, List.filter_cons,
        List.getD_cons_zero, hqx, Bool.false_eq_true, if_false, List.filter_map,
        List.map_map, e1, e2, ih]

lemma getD_zip_zip {α β γ : Type} (x : List α) (y : List β) (z : List γ)
    (dx : α) (dy : β) (dz : γ) (i : ℕ) (hi : i < x.length)
    (hy : y.length = x.length) (hz : z.length = x.length) :
    (x.zip (y.zip z)).getD i (dx, (dy, dz))
      = (x.getD i dx, (y.getD i dy, z.getD i dz)) := by
  have hyz : (y.zip z).length = x.length := by
    rw [List.length_zip y z, hy, hz]; simp
  have hxyz : (x.zip (y.zip z)).length = x.length := by
    rw [List.length_zip, hyz]; simp
  rw [List.getD_eq_getElem _ _ (by omega : i < (x.zip (y.zip z)).length),
    List.getD_eq_getElem _ _ hi, List.getD_eq_getElem _ _ (by omega : i < y.length),
    List.getD_eq_getElem _ _ (by omega : i < z.length)]
  simp [List.getElem_zip]

lemma length_zip_zip {α β γ : Type} (x : List α) (y : List β) (z : List γ)
    (hy : y.length = x.length) (hz : z.length = x.length) :
    (x.zip (y.zip z)).length = x.length := by
  rw [List.length_zip, List.length_zip, hy, hz]; simp

lemma sum_map_getD_range (l : List ℚ) :
    ((List.range l.length).map (fun i => l.getD i 0)).sum = l.sum := by
  induction l with
  | nil => simp
  | cons x xs ih =>
    simp only [List.length_cons, List.range_succ_eq_map, List.map_cons,
      List.getD_cons_zero, List.map_map, List.sum_cons]
    have h : ((List.range xs.length).map ((fun i => (x :: xs).getD i 0) ∘ Nat.succ))
        = (List.range xs.length).map (fun i => xs.getD i 0) := by
      apply List.map_congr_left; intro i _
      simp [Function.comp, List.getD_cons_succ]
    rw [h, ih]

lemma getD_replicate_pair (n i : ℕ) :
    (List.replicate n ((0:ℚ),(0:ℚ))).getD i (0,0) = (0,0) := by
  induction n generalizing i with
  | zero => simp [List.getD]
  | succ m ih =>
    cases i with
    | zero => simp [List.replicate]
    | succ j => simp [List.replicate, List.getD_cons_succ, ih j]

lemma zip3_filter_map_eq_range {α β γ δ : Type} (x : List α) (y : List β)
    (z : List γ) (dx : α) (dy : β) (dz : γ) (q : α × β × γ → Bool)
    (f : α × β × γ → δ) (hy : y.length = x.length) (hz : z.length = x.length) :
    ((x.zip (y.zip z)).filter q).map f
      = ((List.range x.length).filter
            (fun i => q (x.getD i dx, (y.getD i dy, z.getD i dz)))).map
          (fun i => f (x.getD i dx, (y.getD i dy, z.getD i dz))) := by
  have hpt : ∀ i ∈ List.range x.length,
      (x.zip (y.zip z)).getD i (dx, (dy, dz))
        = (x.getD i dx, (y.getD i dy, z.getD i dz)) :=
    fun i hi => getD_zip_zip x y z dx dy dz i (List.mem_range.mp hi) hy hz
  rw [filter_map_eq_range (x.zip (y.zip z)) (dx, (dy, dz)) q f,
    length_zip_zip x y z hy hz,
    List.filter_congr (fun i hi => by rw [hpt i hi])]
  apply List.map_congr_left
  intro i hi
  rw [hpt i (List.mem_filter.mp hi).1]

lemma map_range_zip {α β : Type} (n : ℕ) (f : ℕ → α) (l : List β) (d : β)
    (h : l.length = n) :
    ((List.range n).map f).zip l
      = (List.range n).map (fun i => (f i, l.getD i d)) := by
  induction n generalizing f l with
  | zero => simp
  | succ m ih =>
    cases l with
    | nil => simp at h
    | cons b bs =>
      have hb : bs.length = m := by simpa using h
      simp only [List.range_succ_eq_map, List.map_cons, List.zip_cons_cons,
        List.map_map, List.getD_cons_zero]
      refine congrArg (List.cons (f 0, b)) ?_
      rw [ih (f ∘ Nat.succ) bs hb]
      apply List.map_congr_left
      intro i _
      simp [Function.comp, List.getD_cons_succ]

lemma drAdjustP_none_none (p : List ℚ) : drAdjustP none none p = p := rfl

lemma drAdjustP_length (c? pmin? : Option ℚ) (p : List ℚ) :
    (drAdjustP c? pmin? p).length = p.length := by
  unfold drAdjustP
  cases c? <;> cases pmin? <;> simp

lemma getD_replicate_zero_q (n i : ℕ) :
    (List.replicate n (0:ℚ)).getD i 0 = 0 := by
  induction n generalizing i with
  | zero => simp [List.getD]
  | succ m ih =>
    cases i with
    | zero => simp [List.replicate]
    | succ j => simp [List.replicate, List.getD_cons_succ, ih j]

deriving instance DecidableEq for Except

lemma ncis_never_ok (est r p : List ℚ) (cmin cmax : ℚ) (v : ℚ) :
    evaluateNCIS est r p cmin cmax ≠ Except.ok v := by
  intro h
  unfold evaluateNCIS einsumPairwiseDot at h
  split at h
  · split at h
    · simp only [] at h
      split at h
      · exact Except.noConfusion h
      · exact Except.noConfusion h
    · rename_i numer heq
      exact Except.noConfusion heq
  · exact Except.noConfusion h

/-- Claim C1 (code bug): the spec says `evaluateNCIS` returns
`sum(w_i * r_i) / sum(w_i)` over the kept rows; the code instead calls
`np.einsum("ij,ij->i", w[take], r[take])` on one-dimensional operands, which
raises a numpy `ValueError` (too many subscripts for a rank-1 operand), so the
function never returns a value.  Evaluated here at the failing input
`est = [1], r = [1], p = [1]` with the default caps: the single row has weight
`w = 1 <= cmax` and is kept, the claimed result would be 1, and the call dies
with the einsum error instead. -/
theorem ncis_einsum_valueerror_on_failing_input :
    evaluateNCIS [1] [1] [1] (1 / 100000000) 1000
      = Except.error EvalError.einsumSubscriptsMismatch := by
  norm_num [evaluateNCIS, einsumPairwiseDot]

/-- Claim C3: whenever `update_freq` is an integer that is not a bool — the
default `update_freq=50` included — `evaluateFullyLabeled` fails the
`assert isinstance(update_freq, bool)` check of its preamble; no shuffle, fit,
partial fit or predict happens (empty effect list), so the policy and the
caller's `X`/`y_onehot` buffers are untouched. -/
theorem fully_labeled_int_update_freq_asserts (nX nY nArms : ℕ)
    (onlineFlag shuffleFlag : Bool) (k : ℤ) (seed : ℕ) :
    evaluateFullyLabeled nX nY nArms onlineFlag shuffleFlag (.pyInt k) seed
      = (Except.error EvalError.assertionFailed, []) := rfl

/-- Claim C10: wherever the evaluators use randomness — the random start
point of `evaluateRejectionSampling` and the Beta imputation of
`evaluateDoublyRobust` — the draws come from the generator built from the
integer `random_state` seed, never from the ambient process-global state:
the result is invariant under changing the ambient state (first two
conjuncts), and the random start point is the deterministic first `integers`
draw of the seeded generator (third conjunct).  Hence two calls with the same
seed and inputs return identical outputs. -/
theorem seeded_runs_reproducible :
    (∀ (σ : Type) (g1 g2 : RNG) (pol : Policy σ) (X : List (List ℚ))
        (a : List ℤ) (r : List ℚ) (online incremental : Bool)
        (sp : StartPoint) (seed uf : ℕ),
      evaluateRejectionSampling g1 pol X a r online incremental sp seed uf
        = evaluateRejectionSampling g2 pol X a r online incremental sp seed uf)
    ∧ (∀ (g1 g2 : RNG) (seed : ℕ) (pred a : List ℤ) (r p : List ℚ)
        (re : List (ℚ × ℚ)) (hi : Bool) (c? pmin? : Option ℚ),
      evaluateDoublyRobust g1 seed pred a r p re hi c? pmin?
        = evaluateDoublyRobust g2 seed pred a r p re hi c? pmin?)
    ∧ (∀ (σ : Type) (g : RNG) (pol : Policy σ) (X : List (List ℚ))
        (a : List ℤ) (r : List ℚ) (online incremental : Bool) (seed uf : ℕ),
      evaluateRejectionSampling g pol X a r online incremental .random seed uf
        = evaluateRejectionSampling g pol X a r online incremental
            (.atIndex (((checkRandomState seed).integers X.length).1)) seed uf) := by
  refine ⟨?_, ?_, ?_⟩ <;> intros <;> rfl

/-- Claim C2 (counterexample): in offline mode with zero matching rows the
claim expects the "no usable samples" error; the code instead returns
`(np.mean(r[match]), 0)` where the mean of the empty selection is NaN
(modelled as `none`): here the policy constantly predicts arm 1 while the
logged action is 0, and the call returns `(NaN, 0)` without raising. -/
theorem offline_zero_match_returns_nan :
    evaluateRejectionSampling ⟨0⟩ (constPolicy 1) [[0]] [0] [1] false false
      (.atIndex 0) 1 10 = Except.ok (none, 0) := by
  norm_num [evaluateRejectionSampling, constPolicy, npMean]

/-- Claim C4 (counterexample): the claim says both the reward-estimate buffer
and the propensity array `p` are modified in place.  At this input the
clipping is active (`p = [1/2]` is below `pmin = 1`) and the matched-row
correction fires, yet the call returns the caller's `p` buffer exactly as it
was passed (`[1/2]`, third component) — only the reward-estimate buffer
changed (second component, `(0,0)` became `(1,0)`).  `p` is rebound to fresh
arrays by `c * p` and `np.clip`, never written. -/
theorem dr_p_buffer_unchanged :
    evaluateDoublyRobust ⟨0⟩ 1 [0] [0] [1] [1/2] [(0, 0)] false none (some 1)
      = Except.ok (some 1, [(1, 0)], [1/2]) := by
  norm_num [evaluateDoublyRobust, drAdjustP, npMean, List.range_succ]

lemma offline_matched_bridge {σ : Type} (pol : Policy σ) (X : List (List ℚ))
    (a : List ℤ) (r : List ℚ) (ha : X.length = a.length)
    (hr : a.length = r.length) :
    ((((X.map (pol.predict pol.init)).zip (a.zip r)).filter
        (fun q => decide (q.1 = q.2.1))).map (fun q => q.2.2)
      = (offlineMatches pol X a).map (fun i => r.getD i 0))
    ∧ (((X.map (pol.predict pol.init)).zip (a.zip r)).filter
        (fun q => decide (q.1 = q.2.1))).length
      = (offlineMatches pol X a).length := by
  have hal : a.length = (X.map (pol.predict pol.init)).length := by
    rw [List.length_map]; omega
  have hrl : r.length = (X.map (pol.predict pol.init)).length := by
    rw [List.length_map]; omega
  have hXl : (X.map (pol.predict pol.init)).length = X.length :=
    List.length_map _ _
  have key : ∀ (f : ℤ × ℤ × ℚ → ℚ),
      (((X.map (pol.predict pol.init)).zip (a.zip r)).filter
          (fun q => decide (q.1 = q.2.1))).map f
        = (offlineMatches pol X a).map
            (fun i => f (pol.predict pol.init (X.getD i []), (a.getD i 0, r.getD i 0))) := by
    intro f
    rw [zip3_filter_map_eq_range (X.map (pol.predict pol.init)) a r 0 0 0
      (fun q => decide (q.1 = q.2.1)) f hal hrl, hXl]
    have hpred : ∀ i ∈ List.range X.length,
        (X.map (pol.predict pol.init)).getD i 0
          = pol.predict pol.init (X.getD i []) := by
      intro i hi
      have hi' := List.mem_range.mp hi
      rw [List.getD_eq_getElem _ _ (by rw [hXl]; omega), List.getD_eq_getElem _ _ hi']
      simp
    unfold offlineMatches
    rw [List.filter_congr (fun i hi => by rw [hpred i hi])]
    apply List.map_congr_left
    intro i hi
    rw [hpred i (List.mem_filter.mp hi).1]
  refine ⟨key (fun q => q.2.2), ?_⟩
  have hlen := congrArg List.length (key (fun q => q.2.2))
  simpa [List.length_map] using hlen

/-- Claim C5: in offline mode with at least one row where the policy's
prediction equals the logged action, `evaluateRejectionSampling` returns the
mean of `r` over exactly the matching rows together with their count. -/
theorem rejection_sampling_offline_mean (σ : Type) (ambient : RNG)
    (pol : Policy σ) (X : List (List ℚ)) (a : List ℤ) (r : List ℚ)
    (incremental : Bool) (sp : StartPoint) (seed uf : ℕ)
    (ha : X.length = a.length) (hr : a.length = r.length)
    (hK : offlineMatches pol X a ≠ []) :
    evaluateRejectionSampling ambient pol X a r false incremental sp seed uf
      = Except.ok (some (((offlineMatches pol X a).map (fun i => r.getD i 0)).sum
            / ((offlineMatches pol X a).length : ℚ)),
          (offlineMatches pol X a).length) := by
  obtain ⟨hmap, hlen⟩ := offline_matched_bridge pol X a r ha hr
  have h0 : ¬ (offlineMatches pol X a).length = 0 := by
    simpa [List.length_eq_zero] using hK
  unfold evaluateRejectionSampling
  rw [if_pos ⟨ha, hr⟩]
  simp only [hmap, hlen, npMean, List.length_map, if_neg h0]

/-- Claim C2 (amended): in offline mode with zero matching rows,
`evaluateRejectionSampling` returns `(NaN, 0)` silently (`np.mean` of the
empty selection, modelled as `none`); the "no matching samples" `ValueError`
is raised only by the online branch. -/
theorem rejection_sampling_offline_zero_match (σ : Type) (ambient : RNG)
    (pol : Policy σ) (X : List (List ℚ)) (a : List ℤ) (r : List ℚ)
    (incremental : Bool) (sp : StartPoint) (seed uf : ℕ)
    (ha : X.length = a.length) (hr : a.length = r.length)
    (hK : offlineMatches pol X a = []) :
    evaluateRejectionSampling ambient pol X a r false incremental sp seed uf
      = Except.ok (none, 0) := by
  obtain ⟨hmap, hlen⟩ := offline_matched_bridge pol X a r ha hr
  unfold evaluateRejectionSampling
  rw [if_pos ⟨ha, hr⟩]
  simp only [hmap, hlen, npMean, hK, List.length_map, List.map_nil,
    List.length_nil]
  simp

/-- The row indices `evaluateDoublyRobustSimplified` (and `evaluateNCIS`)
keeps: weight `w_i = clip(est_i / p_i, cmin, +inf)` at most `cmax`. -/
def keptRows (est p : List ℚ) (cmin cmax : ℚ) : List ℕ :=
  (List.range est.length).filter
    (fun i => decide (max (est.getD i 0 / p.getD i 0) cmin ≤ cmax))

/-- Claim C7: `evaluateDoublyRobustSimplified` computes
`w_i = clip(est_i/p_i, cmin, +inf)`, discards (rather than clips) every row
with `w_i > cmax`, and returns the unweighted mean of
`(r_i - p_i) * w_i + est_i` over exactly the kept rows; when every row is
discarded it raises the data-insufficiency `ValueError`.  `hpos` records the
validity precondition that propensities are strictly positive. -/
theorem dr_simplified_keeps_and_averages (est r p : List ℚ) (cmin cmax : ℚ)
    (hp : est.length = p.length) (hr : est.length = r.length)
    (hpos : ∀ i, i < p.length → 0 < p.getD i 0) :
    (keptRows est p cmin cmax ≠ [] →
      evaluateDoublyRobustSimplified est r p cmin cmax
        = Except.ok (((keptRows est p cmin cmax).map (fun i =>
              (r.getD i 0 - p.getD i 0)
                * max (est.getD i 0 / p.getD i 0) cmin + est.getD i 0)).sum
            / ((keptRows est p cmin cmax).length : ℚ)))
    ∧ (keptRows est p cmin cmax = [] →
      evaluateDoublyRobustSimplified est r p cmin cmax
        = Except.error EvalError.noCasesBelowCmax) := by
  have hrl : r.length = est.length := hr.symm
  have hpl : p.length = est.length := hp.symm
  have key : ∀ (f : ℚ × ℚ × ℚ → ℚ),
      ((est.zip (r.zip p)).filter
          (fun q => decide (max (q.1 / q.2.2) cmin ≤ cmax))).map f
        = (keptRows est p cmin cmax).map
            (fun i => f (est.getD i 0, (r.getD i 0, p.getD i 0))) := by
    intro f
    rw [zip3_filter_map_eq_range est r p 0 0 0
      (fun q => decide (max (q.1 / q.2.2) cmin ≤ cmax)) f hrl hpl]
    rfl
  have hlen : ((est.zip (r.zip p)).filter
        (fun q => decide (max (q.1 / q.2.2) cmin ≤ cmax))).length
      = (keptRows est p cmin cmax).length := by
    have := congrArg List.length (key (fun q => q.1))
    simpa [List.length_map] using this
  constructor
  · intro hK
    have h0 : ¬ (keptRows est p cmin cmax).length = 0 := by
      simpa [List.length_eq_zero] using hK
    unfold evaluateDoublyRobustSimplified
    rw [if_pos ⟨hp, hr⟩]
    simp only [hlen, if_neg h0,
      key (fun q => (q.2.1 - q.2.2) * max (q.1 / q.2.2) cmin + q.1)]
  · intro hK
    unfold evaluateDoublyRobustSimplified
    rw [if_pos ⟨hp, hr⟩]
    simp only [hlen, hK, List.length_nil]
    simp

lemma getD_map_fst (re : List (ℚ × ℚ)) (i : ℕ) (hi : i < re.length) :
    (re.map Prod.fst).getD i 0 = (re.getD i (0, 0)).1 := by
  rw [List.getD_eq_getElem _ _ (by simpa using hi), List.getD_eq_getElem _ _ hi]
  simp

lemma getD_map_snd (re : List (ℚ × ℚ)) (i : ℕ) (hi : i < re.length) :
    (re.map Prod.snd).getD i 0 = (re.getD i (0, 0)).2 := by
  rw [List.getD_eq_getElem _ _ (by simpa using hi), List.getD_eq_getElem _ _ hi]
  simp

/-- Claim C4 (amended): with a precomputed reward-estimator array and
`handle_invalid=False`, `evaluateDoublyRobust` mutates the caller's
reward-estimate buffer in place — after the call, column 0 holds
`rhat_new_i` plus the matched-row correction `(r_i - rhat_old_i) / p'_i`
(written through the `out = rhat_new` view), column 1 is unchanged — while
the caller's propensity array `p` comes back exactly as passed: the local
`p` is rebound by the `c`-rescaling and clipping, never written. -/
theorem dr_mutates_estimates_not_p (ambient : RNG) (seed : ℕ)
    (pred a : List ℤ) (r p : List ℚ) (re : List (ℚ × ℚ))
    (c? pmin? : Option ℚ) (h1 : a.length = r.length)
    (h2 : p.length = r.length) (h3 : pred.length = r.length)
    (h4 : re.length = r.length) :
    ∃ v, evaluateDoublyRobust ambient seed pred a r p re false c? pmin?
      = Except.ok (v, (List.range r.length).map (fun i =>
          ((re.getD i (0, 0)).1
            + (if pred.getD i 0 = a.getD i 0 then
                (r.getD i 0 - (re.getD i (0, 0)).2)
                  / (drAdjustP c? pmin? p).getD i 0
              else 0),
           (re.getD i (0, 0)).2)), p) := by
  have hbuf : ((List.range r.length).map (fun i =>
        if pred.getD i 0 = a.getD i 0 then
          (re.map Prod.fst).getD i 0
            + (r.getD i 0 - (re.map Prod.snd).getD i 0)
              / (drAdjustP c? pmin? p).getD i 0
        else (re.map Prod.fst).getD i 0)).zip (re.map Prod.snd)
      = (List.range r.length).map (fun i =>
          ((re.getD i (0, 0)).1
            + (if pred.getD i 0 = a.getD i 0 then
                (r.getD i 0 - (re.getD i (0, 0)).2)
                  / (drAdjustP c? pmin? p).getD i 0
              else 0),
           (re.getD i (0, 0)).2)) := by
    rw [map_range_zip r.length _ (re.map Prod.snd) 0 (by simpa using h4)]
    apply List.map_congr_left
    intro i hi
    have hi' : i < re.length := by rw [h4]; exact List.mem_range.mp hi
    rw [getD_map_fst re i hi', getD_map_snd re i hi']
    by_cases hm : pred.getD i 0 = a.getD i 0
    · rw [if_pos hm, if_pos hm]
    · rw [if_neg hm, if_neg hm, add_zero]
  unfold evaluateDoublyRobust
  rw [if_pos ⟨h1, h2, h3, h4⟩]
  exact ⟨npMean ((List.range r.length).map (fun i =>
      if pred.getD i 0 = a.getD i 0 then
        (re.map Prod.fst).getD i 0
          + (r.getD i 0 - (re.map Prod.snd).getD i 0)
            / (drAdjustP c? pmin? p).getD i 0
      else (re.map Prod.fst).getD i 0)),
    by dsimp only; rw [hbuf]⟩

/-- Claim C8: with `handle_invalid=False`, `c=None`, reward estimator a
precomputed all-zeros n×2 array, and every propensity already at least
`pmin`, `evaluateDoublyRobust` returns exactly the mean over all n rows of
`rhat_new_i + (r_i / p_i) * [pred_i == a_i]` — here `rhat_new_i = 0`, so the
inverse-propensity term appears only on rows where the candidate action
matches the logged one and the other rows contribute zero. -/
theorem dr_zero_estimator_reduces_to_ips (ambient : RNG) (seed : ℕ)
    (pred a : List ℤ) (r p : List ℚ) (m : ℚ)
    (h1 : a.length = r.length) (h2 : p.length = r.length)
    (h3 : pred.length = r.length) (hn : r.length ≠ 0) (hm : 0 < m)
    (hp : ∀ i, i < r.length → m ≤ p.getD i 0) :
    drReturnValue ambient seed pred a r p (List.replicate r.length (0, 0))
        false none (some m)
      = Except.ok (some (((List.range r.length).map (fun i =>
            if pred.getD i 0 = a.getD i 0 then r.getD i 0 / p.getD i 0
            else 0)).sum / (r.length : ℚ))) := by
  have hout : (List.range r.length).map (fun i =>
        if pred.getD i 0 = a.getD i 0 then
          ((List.replicate r.length ((0:ℚ),(0:ℚ))).map Prod.fst).getD i 0
            + (r.getD i 0
                - ((List.replicate r.length ((0:ℚ),(0:ℚ))).map Prod.snd).getD i 0)
              / (drAdjustP none (some m) p).getD i 0
        else ((List.replicate r.length ((0:ℚ),(0:ℚ))).map Prod.fst).getD i 0)
      = (List.range r.length).map (fun i =>
          if pred.getD i 0 = a.getD i 0 then r.getD i 0 / p.getD i 0
          else 0) := by
    apply List.map_congr_left
    intro i hi
    have hi' : i < r.length := List.mem_range.mp hi
    have hz : ((List.replicate r.length ((0:ℚ),(0:ℚ))).map Prod.fst).getD i 0
        = 0 := by
      rw [List.map_replicate]
      exact getD_replicate_zero_q _ _
    have hz2 : ((List.replicate r.length ((0:ℚ),(0:ℚ))).map Prod.snd).getD i 0
        = 0 := by
      rw [List.map_replicate]
      exact getD_replicate_zero_q _ _
    have hpAdj : (drAdjustP none (some m) p).getD i 0 = p.getD i 0 := by
      unfold drAdjustP
      rw [List.getD_eq_getElem _ _ (by simpa using (by omega : i < p.length)),
        List.getD_eq_getElem _ _ (by omega : i < p.length)]
      simp only [List.getElem_map]
      exact max_eq_left (by
        have := hp i hi'
        rw [List.getD_eq_getElem _ _ (by omega : i < p.length)] at this
        exact this)
    rw [hz, hz2, hpAdj]
    by_cases hmt : pred.getD i 0 = a.getD i 0
    · rw [if_pos hmt, if_pos hmt, zero_add, sub_zero]
    · rw [if_neg hmt, if_neg hmt]
  unfold drReturnValue evaluateDoublyRobust
  rw [if_pos ⟨h1, h2, h3, List.length_replicate _ _⟩]
  dsimp only [Except.map]
  rw [hout, npMean]
  rw [List.length_map, List.length_range, if_neg hn]

/-- Claim C9: when both `c` and `pmin` are given, `evaluateDoublyRobust`
first rescales the propensities by `c` and then clips from below: each entry
of the transformed array is exactly `pmin` when `c * p_i < pmin`, and exactly
`c * p_i` otherwise (first conjunct); and the call computes the same value as
a call on the pre-transformed propensities with the rescaling and clipping
switched off (second conjunct), i.e. the transformed array is what the
correction actually uses. -/
theorem dr_rescales_then_clips (c m : ℚ) (p : List ℚ) :
    drAdjustP (some c) (some m) p
        = p.map (fun x => if c * x < m then m else c * x)
    ∧ ∀ (ambient : RNG) (seed : ℕ) (pred a : List ℤ) (r : List ℚ)
        (re : List (ℚ × ℚ)) (hi : Bool),
      drReturnValue ambient seed pred a r p re hi (some c) (some m)
        = drReturnValue ambient seed pred a r (drAdjustP (some c) (some m) p)
            re hi none none := by
  constructor
  · unfold drAdjustP
    dsimp only
    rw [List.map_map]
    apply List.map_congr_left
    intro x _
    by_cases hx : c * x < m
    · simp only [Function.comp_apply, if_pos hx]
      exact max_eq_right (le_of_lt hx)
    · simp only [Function.comp_apply, if_neg hx]
      exact max_eq_left (le_of_not_lt hx)
  · intro ambient seed pred a r re hi
    unfold drReturnValue evaluateDoublyRobust
    simp only [drAdjustP_none_none, drAdjustP_length]
    by_cases hcond : a.length = r.length ∧ p.length = r.length
        ∧ pred.length = r.length ∧ re.length = r.length
    · rw [if_pos hcond, if_pos hcond]
      rfl
    · rw [if_neg hcond, if_neg hcond]

lemma rsStep_cumN_match {σ : Type} (pol : Policy σ) (X : List (List ℚ))
    (a : List ℤ) (r : List ℚ) (inc : Bool) (uf : ℕ) (st : OnlineState σ)
    (i : ℕ) (h : pol.predict st.pol (X.getD i []) = a.getD i 0) :
    (rsStep pol X a r inc uf st i).cumN = st.cumN + 1
    ∧ (rsStep pol X a r inc uf st i).cumR = st.cumR + r.getD i 0 := by
  unfold rsStep
  rw [if_pos h]
  exact ⟨rfl, rfl⟩

lemma rsLoop_always_match {σ : Type} (pol : Policy σ) (X : List (List ℚ))
    (a : List ℤ) (r : List ℚ) (inc : Bool) (uf : ℕ)
    (hmatch : ∀ s i, i < X.length → pol.predict s (X.getD i []) = a.getD i 0) :
    ∀ (L : List ℕ) (st : OnlineState σ), (∀ i ∈ L, i < X.length) →
      (L.foldl (rsStep pol X a r inc uf) st).cumN = st.cumN + L.length
      ∧ (L.foldl (rsStep pol X a r inc uf) st).cumR
          = st.cumR + (L.map (fun i => r.getD i 0)).sum := by
  intro L
  induction L with
  | nil => intro st _; simp
  | cons i L ih =>
    intro st hL
    have hi : i < X.length := hL i (by simp)
    obtain ⟨hN, hR⟩ := rsStep_cumN_match pol X a r inc uf st i
      (hmatch st.pol i hi)
    obtain ⟨ihN, ihR⟩ := ih (rsStep pol X a r inc uf st i)
      (fun j hj => hL j (by simp [hj]))
    constructor
    · rw [List.foldl_cons, ihN, hN, List.length_cons]
      omega
    · rw [List.foldl_cons, ihR, hR, List.map_cons, List.sum_cons]
      ring

/-- Claim C6: in online mode, over a dataset whose policy predicts the logged
action at every state it can reach, `evaluateRejectionSampling` accepts every
row of the wrap-around traversal exactly once, for any start index in
`[0, n)`: the returned count is `n` and the returned mean is the mean of all
rewards (each reward accumulated exactly once). -/
theorem rejection_sampling_online_accepts_all (σ : Type) (ambient : RNG)
    (pol : Policy σ) (X : List (List ℚ)) (a : List ℤ) (r : List ℚ)
    (inc : Bool) (start seed uf : ℕ)
    (ha : X.length = a.length) (hr : a.length = r.length)
    (hstart : start < X.length) (huf : 0 < uf)
    (hmatch : ∀ s i, i < X.length → pol.predict s (X.getD i []) = a.getD i 0) :
    evaluateRejectionSampling ambient pol X a r true inc (.atIndex start)
        seed uf
      = Except.ok (some (r.sum / (X.length : ℚ)), X.length) := by
  unfold evaluateRejectionSampling
  rw [if_pos ⟨ha, hr⟩]
  dsimp only
  set n := X.length with hn
  set order : List ℕ := List.range' start (n - start) ++ List.range start
    with horder
  have horder_bound : ∀ i ∈ order, i < n := by
    intro i hi
    rw [horder, List.mem_append] at hi
    rcases hi with h | h
    · have := List.mem_range'_1.mp h
      omega
    · have := List.mem_range.mp h
      omega
  have horder_len : order.length = n := by
    rw [horder, List.length_append, List.length_range', List.length_range]
    omega
  obtain ⟨hN, hR⟩ := rsLoop_always_match pol X a r inc uf hmatch order
    ⟨0, 0, [], pol.fit pol.init [] [] []⟩ horder_bound
  have hsum : (order.map (fun i => r.getD i 0)).sum = r.sum := by
    have hdecomp : List.range start ++ List.range' start (n - start)
        = List.range n := by
      rw [List.range_eq_range' start, List.range_eq_range' n]
      have := List.range'_append 0 start (n - start) 1
      simpa [Nat.add_comm start (n - start), Nat.sub_add_cancel
        (le_of_lt hstart)] using this
    have hrlen : r.length = n := by omega
    calc (order.map (fun i => r.getD i 0)).sum
        = ((List.range' start (n - start)).map (fun i => r.getD i 0)).sum
            + ((List.range start).map (fun i => r.getD i 0)).sum := by
          rw [horder, List.map_append, List.sum_append]
      _ = ((List.range start).map (fun i => r.getD i 0)).sum
            + ((List.range' start (n - start)).map (fun i => r.getD i 0)).sum := by
          ring
      _ = ((List.range n).map (fun i => r.getD i 0)).sum := by
          rw [← hdecomp, List.map_append, List.sum_append]
      _ = r.sum := by
          rw [← hrlen]
          exact sum_map_getD_range r
  rw [hN, hR, horder_len] at *
  have hnz : ¬ (0 + n = 0) := by omega
  rw [if_neg hnz]
  rw [hsum]
  norm_num

/-- Witness for the C5 theorem at a concrete input: the constant-0 policy
matches only row 0, so the call returns (mean of r over row 0, 1). -/
theorem rejection_sampling_offline_mean_witness :
    evaluateRejectionSampling ⟨0⟩ (constPolicy 0) [[1], [2]] [0, 1] [1, 0]
      false false (.atIndex 0) 1 10 = Except.ok (some 1, 1) := by
  have hK : offlineMatches (constPolicy 0) [[1], [2]] [0, 1] = [0] := by decide
  have h := rejection_sampling_offline_mean Unit ⟨0⟩ (constPolicy 0)
    [[1], [2]] [0, 1] [1, 0] false (.atIndex 0) 1 10 rfl rfl
    (by rw [hK]; exact List.cons_ne_nil 0 [])
  rw [h, hK]
  norm_num

/-- Witness for the C2 amended theorem at a concrete input: the constant-1
policy matches no row, and the call returns (NaN, 0) silently. -/
theorem rejection_sampling_offline_zero_match_witness :
    evaluateRejectionSampling ⟨0⟩ (constPolicy 1) [[0], [1]] [0, 2] [1, 0]
      false false (.atIndex 0) 1 10 = Except.ok (none, 0) :=
  rejection_sampling_offline_zero_match Unit ⟨0⟩ (constPolicy 1) [[0], [1]]
    [0, 2] [1, 0] false (.atIndex 0) 1 10 rfl rfl (by decide)

/-- Witness for the C6 theorem at a concrete input: two rows, both with
logged action 1, constant-1 policy, start index 1: both rows are accepted
exactly once and the call returns (mean of all rewards, 2). -/
theorem rejection_sampling_online_accepts_all_witness :
    evaluateRejectionSampling ⟨0⟩ (constPolicy 1) [[0], [2]] [1, 1] [1, 0]
      true false (.atIndex 1) 1 10 = Except.ok (some (1 / 2), 2) := by
  have h := rejection_sampling_online_accepts_all Unit ⟨0⟩ (constPolicy 1)
    [[0], [2]] [1, 1] [1, 0] false 1 1 10 rfl rfl (by decide) (by decide)
    (fun s i hi => by
      have h2 : i < 2 := hi
      interval_cases i <;> rfl)
  rw [h]
  norm_num

/-- Witness for the C7 theorem at a concrete input: row 1 has ratio 2 above
`cmax = 3/2` and is discarded; only row 0 is averaged. -/
theorem dr_simplified_keeps_and_averages_witness :
    evaluateDoublyRobustSimplified [1, 2] [1, 0] [1, 1] (1 / 2) (3 / 2)
      = Except.ok 1 := by
  have hK : keptRows [1, 2] [1, 1] (1 / 2) (3 / 2) = [0] := by
    norm_num [keptRows, List.range_succ]
  have h := (dr_simplified_keeps_and_averages [1, 2] [1, 0] [1, 1] (1 / 2)
    (3 / 2) rfl rfl (fun i hi => by
      have h2 : i < 2 := hi
      interval_cases i <;> norm_num)).1
    (by rw [hK]; exact List.cons_ne_nil 0 [])
  rw [h, hK]
  norm_num

/-- Witness for the C8 theorem at a concrete input: the candidate matches the
logged action on row 0 only, so the value is `(r_0/p_0 + 0) / 2 = 1`. -/
theorem dr_zero_estimator_reduces_to_ips_witness :
    drReturnValue ⟨0⟩ 1 [0, 1] [0, 0] [1, 1] [1 / 2, 1 / 2]
        (List.replicate 2 (0, 0)) false none (some (1 / 2))
      = Except.ok (some 1) := by
  have h := dr_zero_estimator_reduces_to_ips ⟨0⟩ 1 [0, 1] [0, 0] [1, 1]
    [1 / 2, 1 / 2] (1 / 2) rfl rfl rfl (by decide) (by norm_num)
    (fun i hi => by
      have h2 : i < 2 := hi
      interval_cases i <;> norm_num)
  norm_num [List.range_succ] at h
  exact h

/-- Witness for the C4 amended theorem at a concrete input where the
correction fires and the clipping would alter `p`: the reward buffer comes
back mutated (`(0,0)` became `(2,0)`) while `p` comes back as passed. -/
theorem dr_mutates_estimates_not_p_witness :
    ∃ v, evaluateDoublyRobust ⟨0⟩ 1 [0] [0] [1] [1 / 4] [(0, 0)] false none
        (some (1 / 2))
      = Except.ok (v, [(2, 0)], [1 / 4]) := by
  obtain ⟨v, hv⟩ := dr_mutates_estimates_not_p ⟨0⟩ 1 [0] [0] [1] [1 / 4]
    [(0, 0)] none (some (1 / 2)) rfl rfl rfl rfl
  refine ⟨v, ?_⟩
  rw [hv]
  norm_num [drAdjustP, List.range_succ, max_def]
